import Mathlib

/-!
Verification development for the Dripfyre backend's content-orchestration core.

Each definition below is a shallow embedding of a concrete function of the
JavaScript source (the source file and function are named in the doc
comment).  JS objects whose dynamic key set matters are modelled as
association lists of key/value pairs; absent keys are modelled by a failing
lookup (or by `Option.none` fields where the key set is fixed); `async`
failures are modelled with `Except`; external services (Redis, storage,
generative models) are modelled as explicit oracles passed as arguments.
-/

namespace Dripfyre

/-! ## String utilities

The JS code works on lowercased transcripts with `String.prototype.includes`
(substring test) and `String.prototype.startsWith`.  We model strings as
`List Char` and implement the substring test directly. -/

/-- Character data of a string literal. -/
def str (s : String) : List Char := s.data

/-- Model of `String.prototype.toLowerCase` (applied character-wise). -/
def lower (s : List Char) : List Char := s.map Char.toLower

/-- Model of a prefix test on character lists. -/
def isPrefixList : List Char → List Char → Bool
  | [], _ => true
  | _ :: _, [] => false
  | a :: as, b :: bs => a = b && isPrefixList as bs

/-- Model of `String.prototype.includes hay needle`: `needle` occurs
contiguously inside `hay`. -/
def containsSub : List Char → List Char → Bool
  | [], l => l.isEmpty
  | c :: rest, l => isPrefixList l (c :: rest) || containsSub rest l

/-! ## JS-object model and the session-state merge policy

`src/services/session.service.js`, `storeProcessedContent`: the stored
processed content is merged with the freshly generated partial result by a
shallow spread `{...previous, ...content}`.  A JS object is modelled as an
association list; the spread keeps every key of `previous` (overridden by
`content` where present, in place) followed by the keys of `content` that
are new. -/

/-- Values stored in the processed-content object. -/
inductive JsVal where
  | str (s : String)
  | strList (l : List String)
  | nat (n : Nat)
  | bool (b : Bool)
  | null
deriving DecidableEq, Repr

/-- JS property access on an object modelled as an association list. -/
def lookupKey (k : String) : List (String × JsVal) → Option JsVal
  | [] => none
  | e :: rest => if e.1 = k then some e.2 else lookupKey k rest

/-- Model of the JS object spread `{...prev, ...newFields}`: keys of `prev`
keep their position (values overridden by `newFields` where present), and
keys of `newFields` absent from `prev` are appended in order. -/
def spreadMerge (prev newFields : List (String × JsVal)) :
    List (String × JsVal) :=
  prev.map (fun e =>
      match lookupKey e.1 newFields with
      | some v => (e.1, v)
      | none => e)
    ++ newFields.filter (fun e => (lookupKey e.1 prev).isNone)

/-! ## Sessions (`src/services/session.service.js`) -/

/-- One conversation turn as stored by `addToConversationHistory`. -/
structure Turn where
  role : String
  content : String
  timestamp : Nat
deriving DecidableEq, Repr

/-- The `metadata` field of a stored session.  The per-capability
conversation histories are modelled as a total map from capability name to
turn list (a missing key reads as the empty history, as in
`getConversationHistoryForAgent`). -/
structure SessionMetadata where
  uploadedMedia : List String
  processedContent : List (String × JsVal)
  voiceTranscripts : List String
  conversationHistory : String → List Turn

/-- A stored session record. -/
structure SessionRec where
  sessionId : String
  createdAt : Nat
  updatedAt : Option Nat
  status : String
  metadata : SessionMetadata

/-- `createSessionWithId`: a fresh session with empty metadata. -/
def createSessionWithId (sessionId : String) (now : Nat) : SessionRec where
  sessionId := sessionId
  createdAt := now
  updatedAt := none
  status := "active"
  metadata :=
    { uploadedMedia := []
      processedContent := []
      voiceTranscripts := []
      conversationHistory := fun _ => [] }

/-- `storeProcessedContent`: fold the freshly generated partial result into
the stored processed content by the shallow spread, mark the session
`processed` and refresh `updatedAt`. -/
def storeProcessedContent (s : SessionRec) (content : List (String × JsVal))
    (now : Nat) : SessionRec where
  sessionId := s.sessionId
  createdAt := s.createdAt
  updatedAt := some now
  status := "processed"
  metadata :=
    { s.metadata with
        processedContent := spreadMerge s.metadata.processedContent content }

/-! ## Conversation memory (`src/services/session.service.js`,
`addToConversationHistory`)

Each call pushes a user turn then an assistant turn onto the capability's
history and, when the length exceeds 10, keeps only the last 10 turns
(`slice(-10)`). -/

/-- The per-capability append step of `addToConversationHistory`: push the
user turn, push the assistant turn, then cap at the last 10 turns. -/
def appendExchange (h : List Turn) (userMessage aiResponse : String)
    (now : Nat) : List Turn :=
  let h2 := h ++ [⟨"user", userMessage, now⟩, ⟨"assistant", aiResponse, now⟩]
  if 10 < h2.length then h2.drop (h2.length - 10) else h2

/-- `addToConversationHistory` on the conversation-history map: only the
addressed capability's history changes. -/
def addToConversationHistory (hist : String → List Turn)
    (agentType userMessage aiResponse : String) (now : Nat) :
    String → List Turn :=
  fun k =>
    if k = agentType then appendExchange (hist agentType) userMessage aiResponse now
    else hist k

/-- One user/assistant exchange, as fed to `addToConversationHistory`. -/
structure Exchange where
  userMessage : String
  aiResponse : String
  now : Nat

/-- Iterating `appendExchange` over a list of exchanges. -/
def appendAll (h : List Turn) (exs : List Exchange) : List Turn :=
  exs.foldl (fun acc e => appendExchange acc e.userMessage e.aiResponse e.now) h

/-- The full (uncapped) turn sequence produced by a list of exchanges. -/
def flattenExchanges : List Exchange → List Turn
  | [] => []
  | e :: rest =>
      ⟨"user", e.userMessage, e.now⟩ :: ⟨"assistant", e.aiResponse, e.now⟩ ::
        flattenExchanges rest

/-- The last `n` elements of a list (`Array.prototype.slice(-n)`). -/
def lastN (n : Nat) (l : List α) : List α := l.drop (l.length - n)

/-! ## Intent classifier (`src/agents/coordinator.agent.js`)

`determineRequiredAgentsWithHeuristics` inspects the lowercased transcript
with keyword lists; `determineRequiredAgents` prefers the LLM selection
(an oracle here) and falls back to the heuristics. -/

/-- The intent fields read by the heuristic classifier and the hashtag-count
parser (`rawTranscript`, `action`); the remaining fields produced by
`parseIntent` (platform, theme, mood, style) are not consulted by them. -/
structure Intent where
  rawTranscript : String
  action : Option String
deriving DecidableEq, Repr

/-- A capability plan: which agents must run. -/
structure AgentPlan where
  caption : Bool
  hashtags : Bool
  imageEditor : Bool
deriving DecidableEq, Repr

/-- `captionKeywords` of `determineRequiredAgentsWithHeuristics`. -/
def captionKeywords : List (List Char) :=
  [str "caption", str "description", str "write caption", str "create caption"]

/-- `hashtagKeywords` of `determineRequiredAgentsWithHeuristics`. -/
def hashtagKeywords : List (List Char) :=
  [str "hashtag", str "tags", str "#", str "hash tag"]

/-- `imageEditKeywords` of `determineRequiredAgentsWithHeuristics`. -/
def imageEditKeywords : List (List Char) :=
  [str "edit", str "change", str "modify", str "update", str "make it",
   str "filter", str "aesthetic", str "brighten", str "enhance image"]

/-- `keywords.some(kw => transcript.includes(kw))`. -/
def mentionsAny (t : List Char) (kws : List (List Char)) : Bool :=
  kws.any (fun kw => containsSub t kw)

/-- `(intent.rawTranscript || '').toLowerCase()`. -/
def lowerTranscript (intent : Intent) : List Char :=
  lower (str intent.rawTranscript)

/-- The `isCaptionOnly` test of the heuristics. -/
def isCaptionOnlyT (t : List Char) : Bool :=
  mentionsAny t captionKeywords && !containsSub t (str "hashtag")
    && !containsSub t (str "tag") && !containsSub t (str "#")

/-- The `isHashtagOnly` test of the heuristics. -/
def isHashtagOnlyT (t : List Char) : Bool :=
  mentionsAny t hashtagKeywords && !containsSub t (str "caption")
    && !containsSub t (str "description")

/-- The `needsImageEdit` test of the heuristics. -/
def needsImageEditT (t : List Char) : Bool :=
  mentionsAny t imageEditKeywords &&
    (containsSub t (str "image") || containsSub t (str "photo")
      || containsSub t (str "picture"))

/-- `determineRequiredAgentsWithHeuristics`: the keyword fallback path of
the intent classifier, including the final `edit_image`/`needsImageEdit`
override of the `imageEditor` flag. -/
def determineRequiredAgentsWithHeuristics (intent : Intent) : AgentPlan :=
  let t := lowerTranscript intent
  let base : AgentPlan :=
    if isCaptionOnlyT t then ⟨true, false, false⟩
    else if isHashtagOnlyT t then ⟨false, true, false⟩
    else if needsImageEditT t then ⟨false, false, true⟩
    else ⟨true, true, false⟩
  if intent.action = some "edit_image" || needsImageEditT t then
    { base with imageEditor := true }
  else base

/-- `determineRequiredAgents`: use the LLM selection when it produced one
(the oracle argument), otherwise fall back to the heuristics. -/
def determineRequiredAgents (llmSelection : Option AgentPlan)
    (intent : Intent) : AgentPlan :=
  match llmSelection with
  | some p => p
  | none => determineRequiredAgentsWithHeuristics intent

/-! ## Hashtag-count parsing (`src/agents/hashtagGenerator.agent.js`,
`parseHashtagCount`)

The JS patterns are `/(\d+)\s*hashtag/`, `/only\s*(\d+)/`, `/just\s*(\d+)/`,
`/exactly\s*(\d+)/`, `/(\d+)\s*tag/`, tried in order; a match with a count
outside `1..30` falls through to the next pattern; then word-numbers
one..ten next to "hashtag"/"only"/"just"; otherwise no count. -/

/-- Maximal digit prefix of a character list, with the remainder. -/
def takeDigits : List Char → List Char × List Char
  | [] => ([], [])
  | c :: rest =>
    if c.isDigit then
      let p := takeDigits rest
      (c :: p.1, p.2)
    else ([], c :: rest)

/-- Skip the maximal whitespace prefix (the regex `\s*`). -/
def skipSpaces : List Char → List Char
  | [] => []
  | c :: rest => if c.isWhitespace then skipSpaces rest else c :: rest

/-- `parseInt` on a digit run. -/
def digitsToNat (ds : List Char) : Nat :=
  ds.foldl (fun n c => 10 * n + (c.toNat - 48)) 0

/-- Leftmost match of the regex `(\d+)\s*kw`, returning the captured
number. -/
def matchNumberBefore (kw : List Char) : List Char → Option Nat
  | [] => none
  | c :: rest =>
    if c.isDigit then
      let p := takeDigits (c :: rest)
      if isPrefixList kw (skipSpaces p.2) then some (digitsToNat p.1)
      else matchNumberBefore kw rest
    else matchNumberBefore kw rest

/-- Leftmost match of the regex `kw\s*(\d+)`, returning the captured
number. -/
def matchAfterKw (kw : List Char) : List Char → Option Nat
  | [] => none
  | c :: rest =>
    if isPrefixList kw (c :: rest) then
      let ds := (takeDigits (skipSpaces ((c :: rest).drop kw.length))).1
      if ds.isEmpty then matchAfterKw kw rest else some (digitsToNat ds)
    else matchAfterKw kw rest

/-- The in-range filter of the pattern loop: a captured count is accepted
only when `0 < count ≤ 30`, otherwise the loop moves on. -/
def acceptCount (r : Option Nat) : Option Nat :=
  match r with
  | some c => if 0 < c ∧ c ≤ 30 then some c else none
  | none => none

/-- The `wordNumbers` table. -/
def wordNums : List (List Char × Nat) :=
  [(str "one", 1), (str "two", 2), (str "three", 3), (str "four", 4),
   (str "five", 5), (str "six", 6), (str "seven", 7), (str "eight", 8),
   (str "nine", 9), (str "ten", 10)]

/-- The word-number loop: first word (in table order) appearing as
`"<word> hashtag"`, `"only <word>"` or `"just <word>"`. -/
def wordNumberHit (t : List Char) : Option Nat :=
  (wordNums.find? (fun p =>
      containsSub t (p.1 ++ str " hashtag")
        || containsSub t (str "only " ++ p.1)
        || containsSub t (str "just " ++ p.1))).map (fun p => p.2)

/-- `parseHashtagCount`: the digit patterns in order (each filtered by the
`1..30` range check), then the word-number table, else no count. -/
def parseHashtagCount (transcript : String) : Option Nat :=
  let t := lower (str transcript)
  match acceptCount (matchNumberBefore (str "hashtag") t) with
  | some c => some c
  | none =>
  match acceptCount (matchAfterKw (str "only") t) with
  | some c => some c
  | none =>
  match acceptCount (matchAfterKw (str "just") t) with
  | some c => some c
  | none =>
  match acceptCount (matchAfterKw (str "exactly") t) with
  | some c => some c
  | none =>
  match acceptCount (matchNumberBefore (str "tag") t) with
  | some c => some c
  | none => wordNumberHit t

/-- `generateHashtags`' target count: the parsed count, or 10 by default
(`requestedCount || 10`). -/
def targetCount (transcript : String) : Nat :=
  (parseHashtagCount transcript).getD 10

/-! ## Orchestrator, value semantics (`src/agents/coordinator.agent.js`,
`executeAgentsInParallel` and `processMediaFiles`)

The generative calls are oracles.  The dynamically built `results` object
is modelled with `Option` fields: `none` is an absent key. -/

/-- Output of `captionGeneratorAgent.generateCaption`. -/
structure CaptionOut where
  caption : String
  variations : List String
deriving DecidableEq, Repr

/-- The `categorized` object returned by `categorizeHashtags`. -/
structure Categorized where
  mega : List String
  large : List String
  medium : List String
  niche : List String
deriving DecidableEq, Repr

/-- Output of `hashtagGeneratorAgent.generateHashtags`. -/
structure HashtagOut where
  hashtags : List String
  categorized : Categorized
  formatted : String
deriving DecidableEq, Repr

/-- A media file handed to the orchestrator (`fileId`, `mimetype`). -/
structure MediaFile where
  fileId : String
  mimetype : String
deriving DecidableEq, Repr

/-- Output of `imageEditorAgent.processImage`. -/
structure ImgOut where
  buffer : List Nat
  applied : List String
deriving DecidableEq, Repr

/-- One entry of the orchestrator's `processedMedia` list. -/
structure ProcessedItem where
  originalFileId : String
  buffer : List Nat
  applied : List String
deriving DecidableEq, Repr

/-- The `results` object built by `executeAgentsInParallel`; `none` models
an absent key. -/
structure ResultObj where
  status : String
  caption : Option String := none
  captionVariations : Option (List String) := none
  hashtags : Option (List String) := none
  hashtagsCategorized : Option Categorized := none
  hashtagsFormatted : Option String := none
  processedMedia : Option (List ProcessedItem) := none
deriving DecidableEq, Repr

/-- `mimetype.startsWith('image/')`. -/
def isImageMime (m : String) : Bool := isPrefixList (str "image/") (str m)

/-- `processMediaFiles`: keep image files, apply the image editor to each;
a file whose edit throws is caught and dropped (`null`, filtered out); the
function itself never throws. -/
def processMediaFiles (media : List MediaFile)
    (imgApply : MediaFile → Except String ImgOut) : List ProcessedItem :=
  (media.filter (fun f => isImageMime f.mimetype)).filterMap (fun f =>
    match imgApply f with
    | .ok r => some { originalFileId := f.fileId, buffer := r.buffer,
                      applied := r.applied }
    | .error _ => none)

/-- `executeAgentsInParallel`: classify, run caption first (its failure
propagates), then the hashtag task (its failure rejects the joint wait and
propagates) and the image task (internally caught, always settles, sets the
`processedMedia` key — possibly to the empty list) — both of which complete
before the function returns its `results` object. -/
def executeAgentsInParallel (intent : Intent) (media : List MediaFile)
    (llmSelection : Option AgentPlan) (capO : Except String CaptionOut)
    (hashO : Except String HashtagOut)
    (imgApply : MediaFile → Except String ImgOut) :
    Except String ResultObj :=
  let req := determineRequiredAgents llmSelection intent
  let step1 : Except String ResultObj :=
    if req.caption then
      match capO with
      | .error e => .error e
      | .ok c =>
        .ok { status := "completed"
              caption := some c.caption
              captionVariations := some c.variations }
    else .ok { status := "completed" }
  match step1 with
  | .error e => .error e
  | .ok r1 =>
    let step2 : Except String ResultObj :=
      if req.hashtags then
        match hashO with
        | .error e => .error e
        | .ok h =>
          .ok { r1 with
                hashtags := some h.hashtags
                hashtagsCategorized := some h.categorized
                hashtagsFormatted := some h.formatted }
      else .ok r1
    match step2 with
    | .error e => .error e
    | .ok r2 =>
      .ok (if req.imageEditor && decide (0 < media.length) then
            { r2 with processedMedia := some (processMediaFiles media imgApply) }
          else r2)

/-! ## Edit-flow media persistence (`src/controllers/mvp.controller.js`,
`editWithVoice`, both the aiService-based and the coordinator-based
variants)

New processed buffers are uploaded first; the old processed files are
deleted only afterwards, and only when at least one new file was persisted.
Storage is an oracle `upload : buffer → Option url` (`none` = the upload
threw and was caught, nothing persisted). -/

/-- A storage side effect of the edit flow. -/
inductive StorageEvent where
  | save (url : String)
  | delete (url : String)
deriving DecidableEq, Repr

/-- The save loop: upload every result item with a non-empty buffer,
collecting the urls of the successfully persisted files. -/
def savedUrls (resultMedia : List ProcessedItem)
    (upload : List Nat → Option String) : List String :=
  resultMedia.filterMap (fun m =>
    if 0 < m.buffer.length then upload m.buffer else none)

/-- The storage events of the edit flow, in program order: all saves, then
— only if the session had processed images and at least one new file was
persisted — the deletions of the old processed files. -/
def editMediaEvents (prevProcessed : List String)
    (resultMedia : List ProcessedItem)
    (upload : List Nat → Option String) : List StorageEvent :=
  let newUrls := savedUrls resultMedia upload
  newUrls.map StorageEvent.save ++
    (if 0 < prevProcessed.length ∧ 0 < newUrls.length then
      prevProcessed.map StorageEvent.delete
    else [])

/-- The `processedMedia` field stored by the aiService-based
`editWithVoice`: new urls if any, else the previous processed media if any,
else the uploaded originals. -/
def mvpStoredProcessedMedia (prevProcessed uploaded : List String)
    (resultMedia : List ProcessedItem)
    (upload : List Nat → Option String) : List String :=
  let newUrls := savedUrls resultMedia upload
  if 0 < newUrls.length then newUrls
  else if 0 < prevProcessed.length then prevProcessed
  else uploaded

/-- The `processedMedia` field stored by the coordinator-based
`editWithVoice`: new urls if any, else the uploaded originals (the previous
processed media is not consulted). -/
def coordinatorStoredProcessedMedia (uploaded : List String)
    (resultMedia : List ProcessedItem)
    (upload : List Nat → Option String) : List String :=
  let newUrls := savedUrls resultMedia upload
  if 0 < newUrls.length then newUrls else uploaded

/-! ## Orchestrator, event semantics (`src/agents/coordinator.agent.js`,
`executeAgentsInParallel`)

The temporal behaviour of a normally returning orchestration call: the
caption await completes first, then the hashtag task and the image task run
as an arbitrary interleaving, and the function returns only after both have
settled. -/

/-- Events of one orchestration call. -/
inductive OrchEv where
  | captionStart
  | captionEnd (caption : String)
  | hashtagStart (captionArg : String)
  | hashtagEnd
  | imageStart
  | imageEnd
  | orchReturn
deriving DecidableEq, Repr

/-- The sequential caption phase (step 1). -/
def captionPhase (req : AgentPlan) (capOut : CaptionOut) : List OrchEv :=
  if req.caption then [OrchEv.captionStart, OrchEv.captionEnd capOut.caption]
  else []

/-- The hashtag task: invoked with `captionResult?.caption || ''`. -/
def hashtagTask (req : AgentPlan) (capOut : CaptionOut) : List OrchEv :=
  if req.hashtags then
    [OrchEv.hashtagStart (if req.caption then capOut.caption else ""),
     OrchEv.hashtagEnd]
  else []

/-- The image task: queued only when required and media is non-empty. -/
def imageTask (req : AgentPlan) (mediaCount : Nat) : List OrchEv :=
  if req.imageEditor && decide (0 < mediaCount) then
    [OrchEv.imageStart, OrchEv.imageEnd]
  else []

/-- `Interleave xs ys zs`: `zs` is an interleaving of `xs` and `ys`
preserving the internal order of each. -/
inductive Interleave : List α → List α → List α → Prop where
  | nil : Interleave [] [] []
  | consLeft (x : α) {xs ys zs : List α} :
      Interleave xs ys zs → Interleave (x :: xs) ys (x :: zs)
  | consRight (y : α) {xs ys zs : List α} :
      Interleave xs ys zs → Interleave xs (y :: ys) (y :: zs)

/-- The admissible event traces of a normally returning
`executeAgentsInParallel` call: caption phase, then any interleaving of the
two parallel tasks, then the return. -/
def OrchTrace (req : AgentPlan) (capOut : CaptionOut) (mediaCount : Nat)
    (tr : List OrchEv) : Prop :=
  ∃ mid, Interleave (hashtagTask req capOut) (imageTask req mediaCount) mid ∧
    tr = captionPhase req capOut ++ mid ++ [OrchEv.orchReturn]

/-! ## Session store wrappers (`src/services/redis.service.js`,
`src/services/session.service.js`, `src/middleware/session.middleware.js`)

The underlying client call is an oracle `Except`; the wrappers catch every
failure. -/

/-- `redisService.get`: returns the parsed value, or `null` on a missing
key or on any thrown error. -/
def redisGet (readResult : Except String (Option SessionRec)) :
    Option SessionRec :=
  match readResult with
  | .ok v => v
  | .error _ => none

/-- `redisService.set`: returns `true` on success, `false` on any thrown
error. -/
def redisSet (writeResult : Except String Unit) : Bool :=
  match writeResult with
  | .ok _ => true
  | .error _ => false

/-- `sessionService.getSession`: read `session:<id>` through the wrapper
and return `null` when nothing usable came back. -/
def getSession (store : String → Except String (Option SessionRec))
    (sessionId : String) : Option SessionRec :=
  redisGet (store ("session:" ++ sessionId))

/-- Outcome of the session-validation middleware. -/
inductive ValidationOutcome where
  | badRequest (message : String)
  | proceed (session : SessionRec) (created : Bool)

/-- `validateSession`: reject a missing id with 400; otherwise fetch the
session and auto-create a fresh one when the fetch returned `null`. -/
def validateSession (store : String → Except String (Option SessionRec))
    (sessionId : Option String) (now : Nat) : ValidationOutcome :=
  match sessionId with
  | none => ValidationOutcome.badRequest
      "Session ID is required. Frontend should generate and send a UUID."
  | some id =>
    match getSession store id with
    | some s => ValidationOutcome.proceed s false
    | none => ValidationOutcome.proceed (createSessionWithId id now) true

/-- Concrete result object used in witnesses: all capabilities ran. -/
def fullSampleResult : ResultObj where
  status := "completed"
  caption := some "c"
  captionVariations := some ["v"]
  hashtags := some ["#a"]
  hashtagsCategorized := some ⟨[], [], [], []⟩
  hashtagsFormatted := some "#a"
  processedMedia := some [⟨"f1", [1], ["op"]⟩]

/-- Concrete result object: hashtag generation succeeded while every image
transform threw. -/
def hashtagOnlySampleResult : ResultObj where
  status := "completed"
  hashtags := some ["#a"]
  hashtagsCategorized := some ⟨[], [], [], []⟩
  hashtagsFormatted := some "#a"
  processedMedia := some []

/-! # Theorems -/

/-! ## String lemmas -/

theorem isPrefixList_iff (l t : List Char) : isPrefixList l t = true ↔ l <+: t := by
  induction l generalizing t with
  | nil => simp [isPrefixList]
  | cons a as ih =>
    cases t with
    | nil => simp [isPrefixList]
    | cons b bs =>
      simp [isPrefixList, ih, List.cons_prefix_cons]

theorem containsSub_iff (t l : List Char) : containsSub t l = true ↔ l <:+: t := by
  induction t with
  | nil =>
    simp [containsSub, List.isEmpty_iff, List.infix_nil]
  | cons c rest ih =>
    simp only [containsSub, Bool.or_eq_true, isPrefixList_iff, ih,
      List.infix_cons_iff]

/-- A substring of a contained string is itself contained. -/
theorem containsSub_of_infix {t l l' : List Char} (h : containsSub t l = true)
    (hinf : l' <:+: l) : containsSub t l' = true := by
  rw [containsSub_iff] at h ⊢
  exact hinf.trans h

/-! ## Merge-policy lemmas -/

theorem lookupKey_append (k : String) (l1 l2 : List (String × JsVal)) :
    lookupKey k (l1 ++ l2) =
      match lookupKey k l1 with
      | some v => some v
      | none => lookupKey k l2 := by
  induction l1 with
  | nil => simp [lookupKey]
  | cons e rest ih =>
    by_cases h : e.1 = k <;> simp [lookupKey, h, ih]

theorem lookupKey_map_override (k : String) (prev newFields : List (String × JsVal)) :
    lookupKey k (prev.map (fun e =>
        match lookupKey e.1 newFields with
        | some v => (e.1, v)
        | none => e)) =
      match lookupKey k prev with
      | some v =>
          match lookupKey k newFields with
          | some w => some w
          | none => some v
      | none => none := by
  induction prev with
  | nil => simp [lookupKey]
  | cons e rest ih =>
    by_cases h : e.1 = k
    · subst h
      cases hnew : lookupKey e.1 newFields <;>
        simp [lookupKey, hnew]
    · cases hnew : lookupKey e.1 newFields <;>
        simp [lookupKey, hnew, h, ih]

theorem lookupKey_filter_new (k : String) (prev newFields : List (String × JsVal)) :
    lookupKey k (newFields.filter (fun e => (lookupKey e.1 prev).isNone)) =
      match lookupKey k prev with
      | some _ => none
      | none => lookupKey k newFields := by
  induction newFields with
  | nil => cases lookupKey k prev <;> simp [lookupKey]
  | cons e rest ih =>
    by_cases h : e.1 = k
    · subst h
      cases hp : lookupKey e.1 prev <;>
        simp [List.filter, lookupKey, hp, ih]
    · cases hp : lookupKey e.1 prev <;>
        cases hip : (lookupKey e.1 prev).isNone <;>
        simp_all [List.filter, lookupKey, h, ih]

/-- The spread's lookup semantics: keys of the new partial result win, all
other keys fall back to the previous object. -/
theorem lookupKey_spreadMerge (k : String) (prev newFields : List (String × JsVal)) :
    lookupKey k (spreadMerge prev newFields) =
      match lookupKey k newFields with
      | some v => some v
      | none => lookupKey k prev := by
  unfold spreadMerge
  rw [lookupKey_append, lookupKey_map_override, lookupKey_filter_new]
  cases hp : lookupKey k prev <;> cases hn : lookupKey k newFields <;> simp

/-- Spreading an empty partial result leaves the object unchanged. -/
theorem spreadMerge_empty (prev : List (String × JsVal)) :
    spreadMerge prev [] = prev := by
  unfold spreadMerge
  simp only [lookupKey, List.filter_nil, List.append_nil]
  exact List.map_id' prev

/-! ## Claim C1 -/

/-- C1: `storeProcessedContent` folds the partial result into the stored
Processed Content by a shallow field-wise overlay: every key present in the
new partial result takes the new value, every key absent from it keeps its
previous value, and merging an empty partial result leaves the Processed
Content unchanged. -/
theorem storeProcessedContent_overlay (s : SessionRec)
    (content : List (String × JsVal)) (now : Nat) (k : String) :
    (∀ v, lookupKey k content = some v →
      lookupKey k (storeProcessedContent s content now).metadata.processedContent
        = some v)
    ∧ (lookupKey k content = none →
      lookupKey k (storeProcessedContent s content now).metadata.processedContent
        = lookupKey k s.metadata.processedContent)
    ∧ (storeProcessedContent s [] now).metadata.processedContent
        = s.metadata.processedContent := by
  refine ⟨fun v hv => ?_, fun hnone => ?_, ?_⟩
  · show lookupKey k (spreadMerge s.metadata.processedContent content) = some v
    rw [lookupKey_spreadMerge, hv]
  · show lookupKey k (spreadMerge s.metadata.processedContent content) = _
    rw [lookupKey_spreadMerge, hnone]
  · show spreadMerge s.metadata.processedContent [] = _
    exact spreadMerge_empty _

/-- Witness for C1 at a concrete session and partial result. -/
theorem storeProcessedContent_overlay_witness :
    lookupKey "caption"
      (storeProcessedContent
        { sessionId := "s1", createdAt := 0, updatedAt := none,
          status := "active",
          metadata :=
            { uploadedMedia := [], voiceTranscripts := [],
              conversationHistory := fun _ => [],
              processedContent :=
                [("caption", JsVal.str "A"), ("hashtags", JsVal.strList ["#x"])] } }
        [("caption", JsVal.str "B")] 5).metadata.processedContent
      = some (JsVal.str "B") :=
  (storeProcessedContent_overlay
    { sessionId := "s1", createdAt := 0, updatedAt := none,
      status := "active",
      metadata :=
        { uploadedMedia := [], voiceTranscripts := [],
          conversationHistory := fun _ => [],
          processedContent :=
            [("caption", JsVal.str "A"), ("hashtags", JsVal.strList ["#x"])] } }
    [("caption", JsVal.str "B")] 5 "caption").1 (JsVal.str "B") rfl

/-! ## Conversation-memory lemmas -/

theorem appendExchange_lastN (F : List Turn) (u a : String) (now : Nat) :
    appendExchange (lastN 10 F) u a now
      = lastN 10 (F ++ [⟨"user", u, now⟩, ⟨"assistant", a, now⟩]) := by
  unfold appendExchange lastN
  by_cases h : F.length ≤ 8
  · have hd : F.length - 10 = 0 := by omega
    rw [hd, List.drop_zero]
    have hlen : (F ++ [(⟨"user", u, now⟩ : Turn), ⟨"assistant", a, now⟩]).length
        = F.length + 2 := by simp
    rw [if_neg (by rw [hlen]; omega), hlen]
    have hz : F.length + 2 - 10 = 0 := by omega
    rw [hz, List.drop_zero]
  · have hlen1 : (F.drop (F.length - 10)).length = F.length - (F.length - 10) :=
      List.length_drop _ _
    have hlen2 : (F.drop (F.length - 10)
          ++ [(⟨"user", u, now⟩ : Turn), ⟨"assistant", a, now⟩]).length
        = (F.length - (F.length - 10)) + 2 := by simp
    rw [if_pos (by rw [hlen2]; omega), hlen2]
    rw [List.drop_append_of_le_length (by rw [hlen1]; omega), List.drop_drop]
    have hlen3 : (F ++ [(⟨"user", u, now⟩ : Turn), ⟨"assistant", a, now⟩]).length
        = F.length + 2 := by simp
    rw [hlen3]
    rw [List.drop_append_of_le_length (by omega)]
    have harith : (F.length - 10) + ((F.length - (F.length - 10)) + 2 - 10)
        = F.length + 2 - 10 := by omega
    rw [harith]

theorem appendAll_lastN (exs : List Exchange) (F : List Turn) :
    appendAll (lastN 10 F) exs = lastN 10 (F ++ flattenExchanges exs) := by
  induction exs generalizing F with
  | nil => simp [appendAll, flattenExchanges]
  | cons e rest ih =>
    show appendAll (appendExchange (lastN 10 F) e.userMessage e.aiResponse e.now)
        rest = _
    rw [appendExchange_lastN, ih]
    simp [flattenExchanges]

theorem length_flattenExchanges (exs : List Exchange) :
    (flattenExchanges exs).length = 2 * exs.length := by
  induction exs with
  | nil => rfl
  | cons e rest ih => simp [flattenExchanges, ih]; omega

/-! ## Claim C4 -/

/-- C4: each `addToConversationHistory` call appends exactly the user turn
then the assistant turn to the addressed capability's history (verbatim
while under the 10-turn cap), and iterating it from an empty history over
more than 5 exchanges always leaves exactly the most recent 10 turns of the
full turn sequence, in their original relative order. -/
theorem addToConversationHistory_cap (hist : String → List Turn)
    (agentType userMessage aiResponse : String) (now : Nat) :
    (addToConversationHistory hist agentType userMessage aiResponse now) agentType
        = appendExchange (hist agentType) userMessage aiResponse now
    ∧ (∀ (h : List Turn) (u a : String) (n : Nat), h.length ≤ 8 →
        appendExchange h u a n = h ++ [⟨"user", u, n⟩, ⟨"assistant", a, n⟩])
    ∧ (∀ exs : List Exchange, 5 < exs.length →
        appendAll [] exs = lastN 10 (flattenExchanges exs)
        ∧ (appendAll [] exs).length = 10) := by
  refine ⟨by simp [addToConversationHistory], fun h u a n hlen => ?_,
    fun exs hexs => ⟨?_, ?_⟩⟩
  · unfold appendExchange
    rw [if_neg (by simp; omega)]
  · have := appendAll_lastN exs []
    simpa [lastN] using this
  · have heq := appendAll_lastN exs []
    simp only [List.nil_append] at heq
    have : lastN 10 ([] : List Turn) = [] := rfl
    rw [this] at heq
    rw [heq]
    unfold lastN
    rw [List.length_drop, length_flattenExchanges]
    omega

/-- Witness for C4: six exchanges on an empty history leave exactly the
last 10 turns. -/
theorem addToConversationHistory_cap_witness :
    5 < ([⟨"u1", "a1", 1⟩, ⟨"u2", "a2", 2⟩, ⟨"u3", "a3", 3⟩, ⟨"u4", "a4", 4⟩,
          ⟨"u5", "a5", 5⟩, ⟨"u6", "a6", 6⟩] : List Exchange).length
    ∧ (appendAll [] [⟨"u1", "a1", 1⟩, ⟨"u2", "a2", 2⟩, ⟨"u3", "a3", 3⟩,
          ⟨"u4", "a4", 4⟩, ⟨"u5", "a5", 5⟩, ⟨"u6", "a6", 6⟩]
        = lastN 10 (flattenExchanges [⟨"u1", "a1", 1⟩, ⟨"u2", "a2", 2⟩,
            ⟨"u3", "a3", 3⟩, ⟨"u4", "a4", 4⟩, ⟨"u5", "a5", 5⟩, ⟨"u6", "a6", 6⟩])
        ∧ (appendAll [] [⟨"u1", "a1", 1⟩, ⟨"u2", "a2", 2⟩, ⟨"u3", "a3", 3⟩,
            ⟨"u4", "a4", 4⟩, ⟨"u5", "a5", 5⟩, ⟨"u6", "a6", 6⟩]).length = 10) :=
  ⟨by decide,
    (addToConversationHistory_cap (fun _ => []) "caption" "u" "a" 0).2.2
      [⟨"u1", "a1", 1⟩, ⟨"u2", "a2", 2⟩, ⟨"u3", "a3", 3⟩, ⟨"u4", "a4", 4⟩,
       ⟨"u5", "a5", 5⟩, ⟨"u6", "a6", 6⟩] (by decide)⟩

/-! ## Claim C5 -/

/-- C5 counterexample: the instruction "edit the photo caption" mentions a
caption keyword and none of the hashtag keywords, yet the heuristic plan is
not caption only — the image-edit rule fires and also enables the image
editor. -/
theorem heuristics_caption_only_cex :
    mentionsAny (lowerTranscript ⟨"edit the photo caption", none⟩)
        captionKeywords = true
    ∧ mentionsAny (lowerTranscript ⟨"edit the photo caption", none⟩)
        hashtagKeywords = false
    ∧ determineRequiredAgentsWithHeuristics ⟨"edit the photo caption", none⟩
        = ⟨true, false, true⟩
    ∧ (⟨true, false, true⟩ : AgentPlan) ≠ ⟨true, false, false⟩ := by decide

/-- C5 (amended): restricted to instructions on which the image-edit rule
does not fire and whose action flag is not `edit_image`: a caption keyword
with none of "hashtag"/"tag"/"#" gives the caption-only plan; a hashtag
keyword with no caption keyword gives the hashtags-only plan; and when both
keyword sets match, the classifier falls through to the default plan with
both caption and hashtags enabled. -/
theorem heuristics_keyword_rules (intent : Intent)
    (himg : needsImageEditT (lowerTranscript intent) = false)
    (hact : intent.action ≠ some "edit_image") :
    (mentionsAny (lowerTranscript intent) captionKeywords = true →
      containsSub (lowerTranscript intent) (str "hashtag") = false →
      containsSub (lowerTranscript intent) (str "tag") = false →
      containsSub (lowerTranscript intent) (str "#") = false →
      determineRequiredAgentsWithHeuristics intent = ⟨true, false, false⟩)
    ∧ (mentionsAny (lowerTranscript intent) hashtagKeywords = true →
      mentionsAny (lowerTranscript intent) captionKeywords = false →
      determineRequiredAgentsWithHeuristics intent = ⟨false, true, false⟩)
    ∧ (mentionsAny (lowerTranscript intent) captionKeywords = true →
      mentionsAny (lowerTranscript intent) hashtagKeywords = true →
      determineRequiredAgentsWithHeuristics intent = ⟨true, true, false⟩) := by
  refine ⟨fun h1 h2 h3 h4 => ?_, fun h1 h2 => ?_, fun h1 h2 => ?_⟩
  · have hco : isCaptionOnlyT (lowerTranscript intent) = true := by
      simp [isCaptionOnlyT, h1, h2, h3, h4]
    simp [determineRequiredAgentsWithHeuristics, hco, himg, hact]
  · have hco : isCaptionOnlyT (lowerTranscript intent) = false := by
      simp [isCaptionOnlyT, h2]
    simp only [mentionsAny, captionKeywords, List.any_cons, List.any_nil,
      Bool.or_eq_false_iff] at h2
    have hho : isHashtagOnlyT (lowerTranscript intent) = true := by
      simp [isHashtagOnlyT, h1, h2.1, h2.2.1]
    simp [determineRequiredAgentsWithHeuristics, hco, hho, himg, hact]
  · have hco : isCaptionOnlyT (lowerTranscript intent) = false := by
      simp only [mentionsAny, hashtagKeywords, List.any_cons, List.any_nil,
        Bool.or_eq_true] at h2
      rcases h2 with h | h | h | h | h
      · simp [isCaptionOnlyT, h]
      · have htg : containsSub (lowerTranscript intent) (str "tag") = true :=
          containsSub_of_infix h (by decide)
        simp [isCaptionOnlyT, htg]
      · simp [isCaptionOnlyT, h]
      · have htg : containsSub (lowerTranscript intent) (str "tag") = true :=
          containsSub_of_infix h (by decide)
        simp [isCaptionOnlyT, htg]
      · simp at h
    have hho : isHashtagOnlyT (lowerTranscript intent) = false := by
      simp only [mentionsAny, captionKeywords, List.any_cons, List.any_nil,
        Bool.or_eq_true] at h1
      rcases h1 with h | h | h | h | h
      · simp [isHashtagOnlyT, h]
      · simp [isHashtagOnlyT, h]
      · have hcp : containsSub (lowerTranscript intent) (str "caption") = true :=
          containsSub_of_infix h (by decide)
        simp [isHashtagOnlyT, hcp]
      · have hcp : containsSub (lowerTranscript intent) (str "caption") = true :=
          containsSub_of_infix h (by decide)
        simp [isHashtagOnlyT, hcp]
      · simp at h
    simp [determineRequiredAgentsWithHeuristics, hco, hho, himg, hact]

/-- Witness for C5 at a concrete instruction matching both keyword sets. -/
theorem heuristics_keyword_rules_witness :
    needsImageEditT (lowerTranscript ⟨"generate hashtags and caption", none⟩) = false
    ∧ determineRequiredAgentsWithHeuristics ⟨"generate hashtags and caption", none⟩
        = ⟨true, true, false⟩ :=
  ⟨by decide,
    (heuristics_keyword_rules ⟨"generate hashtags and caption", none⟩
      (by decide) (by decide)).2.2 (by decide) (by decide)⟩

/-! ## Claim C9 -/

/-- C9: for every intent, the heuristic fallback classifier returns a plan
with at least one capability enabled — every branch of the rule chain sets
a flag, and the ambiguous case defaults to caption and hashtags. -/
theorem heuristics_plan_nonempty (intent : Intent) :
    (determineRequiredAgentsWithHeuristics intent).caption = true
    ∨ (determineRequiredAgentsWithHeuristics intent).hashtags = true
    ∨ (determineRequiredAgentsWithHeuristics intent).imageEditor = true := by
  unfold determineRequiredAgentsWithHeuristics
  dsimp only
  split
  · exact Or.inr (Or.inr rfl)
  · split
    · exact Or.inl rfl
    · split
      · exact Or.inr (Or.inl rfl)
      · split
        · exact Or.inr (Or.inr rfl)
        · exact Or.inl rfl

/-! ## Claim C6 -/

/-- C6 counterexample: "50 hashtags" requests a count above the 30 maximum;
the parser rejects it and the target count falls back to the default 10 —
it is not clamped to 30. -/
theorem targetCount_above_max_cex :
    targetCount "50 hashtags" = 10 ∧ targetCount "50 hashtags" ≠ 30 := by decide

/-- C6 (amended): an explicit number yields that number ("generate 3
hashtags" gives 3), "only"/word-number forms work ("only five hashtags"
gives 5), an instruction with no number defaults to 10, and a requested
count above the maximum of 30 is rejected, falling back to the default 10
(not clamped to 30). -/
theorem targetCount_parsing :
    targetCount "generate 3 hashtags" = 3
    ∧ targetCount "only five hashtags" = 5
    ∧ targetCount "make the caption funnier" = 10
    ∧ targetCount "50 hashtags" = 10 := by decide

/-! ## Claim C3 -/

/-- C3: when an orchestration call returns normally, its result object has
the caption keys exactly when the caption capability ran, the hashtag keys
exactly when hashtag generation ran, and the processedMedia key exactly
when the image editor ran (required and media non-empty); keys of
capabilities that did not run are entirely absent (`none`), never empty
placeholders. -/
theorem executeAgents_result_keys (intent : Intent) (media : List MediaFile)
    (llmSelection : Option AgentPlan) (capO : Except String CaptionOut)
    (hashO : Except String HashtagOut)
    (imgApply : MediaFile → Except String ImgOut) (r : ResultObj)
    (hok : executeAgentsInParallel intent media llmSelection capO hashO imgApply
        = .ok r) :
    ((r.caption.isSome ∨ r.captionVariations.isSome)
        ↔ (determineRequiredAgents llmSelection intent).caption = true)
    ∧ ((r.hashtags.isSome ∨ r.hashtagsFormatted.isSome)
        ↔ (determineRequiredAgents llmSelection intent).hashtags = true)
    ∧ (r.processedMedia.isSome
        ↔ ((determineRequiredAgents llmSelection intent).imageEditor = true
            ∧ 0 < media.length)) := by
  unfold executeAgentsInParallel at hok
  by_cases hc : (determineRequiredAgents llmSelection intent).caption <;>
    by_cases hh : (determineRequiredAgents llmSelection intent).hashtags <;>
    by_cases hi : (determineRequiredAgents llmSelection intent).imageEditor <;>
    by_cases hm : 0 < media.length <;>
    cases capO <;> cases hashO <;>
    simp [hc, hh, hi, hm] at hok <;>
    (try subst hok) <;>
    simp [hc, hh, hi, hm]

/-- Witness for C3 at a concrete orchestration call with all capabilities
required and succeeding. -/
theorem executeAgents_result_keys_witness :
    ((fullSampleResult.caption.isSome ∨ fullSampleResult.captionVariations.isSome)
      ↔ (determineRequiredAgents (some ⟨true, true, true⟩) ⟨"x", none⟩).caption = true)
    ∧ ((fullSampleResult.hashtags.isSome ∨ fullSampleResult.hashtagsFormatted.isSome)
      ↔ (determineRequiredAgents (some ⟨true, true, true⟩) ⟨"x", none⟩).hashtags = true)
    ∧ (fullSampleResult.processedMedia.isSome
      ↔ ((determineRequiredAgents (some ⟨true, true, true⟩) ⟨"x", none⟩).imageEditor = true
          ∧ 0 < ([⟨"f1", "image/jpeg"⟩] : List MediaFile).length)) :=
  executeAgents_result_keys ⟨"x", none⟩ [⟨"f1", "image/jpeg"⟩]
    (some ⟨true, true, true⟩) (.ok ⟨"c", ["v"]⟩)
    (.ok ⟨["#a"], ⟨[], [], [], []⟩, "#a"⟩) (fun _ => .ok ⟨[1], ["op"]⟩)
    fullSampleResult rfl

/-! ## Claim C2 -/

/-- C2 counterexample: when every per-file image transform throws while
hashtag generation succeeds, the returned result does not omit the
`processedMedia` key — the key is present and bound to the empty list. -/
theorem orchestration_image_failure_cex :
    executeAgentsInParallel ⟨"x", none⟩ [⟨"f1", "image/jpeg"⟩]
        (some ⟨false, true, true⟩) (.ok ⟨"", []⟩)
        (.ok ⟨["#a"], ⟨[], [], [], []⟩, "#a"⟩) (fun _ => .error "transform failed")
      = .ok hashtagOnlySampleResult
    ∧ hashtagOnlySampleResult.processedMedia ≠ none :=
  ⟨rfl, by simp [hashtagOnlySampleResult]⟩

/-- C2 (amended): when every image transform throws but hashtag generation
succeeds, the orchestration call still returns normally and its result
carries the hashtag keys; the `processedMedia` key however is present and
bound to the empty list (failed files are dropped, the key is still set).
The previous processed files are not deleted by the edit flow's store step
(an empty result produces no storage events), but a shallow merge of this
raw result would overwrite the stored `processedMedia` with the empty
list. -/
theorem orchestration_image_failure_isolated (intent : Intent)
    (media : List MediaFile) (llmSelection : Option AgentPlan)
    (c : CaptionOut) (h : HashtagOut) (errF : MediaFile → String)
    (hreqh : (determineRequiredAgents llmSelection intent).hashtags = true)
    (hreqi : (determineRequiredAgents llmSelection intent).imageEditor = true)
    (hm : 0 < media.length) :
    (∃ r, executeAgentsInParallel intent media llmSelection (.ok c) (.ok h)
          (fun f => .error (errF f)) = .ok r
      ∧ r.hashtags = some h.hashtags
      ∧ r.hashtagsFormatted = some h.formatted
      ∧ r.processedMedia = some [])
    ∧ (∀ (prevProcessed : List String) (upload : List Nat → Option String),
        editMediaEvents prevProcessed [] upload = [])
    ∧ (∀ prevPC : List (String × JsVal),
        lookupKey "processedMedia"
            (spreadMerge prevPC [("processedMedia", JsVal.strList [])])
          = some (JsVal.strList [])) := by
  refine ⟨?_, fun prevProcessed upload => ?_, fun prevPC => ?_⟩
  · have hpm : processMediaFiles media (fun f => .error (errF f)) = [] := by
      simp [processMediaFiles]
    unfold executeAgentsInParallel
    by_cases hc : (determineRequiredAgents llmSelection intent).caption <;>
      simp [hc, hreqh, hreqi, hm, hpm]
  · simp [editMediaEvents, savedUrls]
  · rw [lookupKey_spreadMerge]
    simp [lookupKey]

/-- Witness for C2 at a concrete orchestration call. -/
theorem orchestration_image_failure_isolated_witness :
    (∃ r, executeAgentsInParallel ⟨"x", none⟩ [⟨"f1", "image/jpeg"⟩]
          (some ⟨false, true, true⟩) (.ok ⟨"", []⟩)
          (.ok ⟨["#a"], ⟨[], [], [], []⟩, "#a"⟩)
          (fun f => .error ((fun _ => "boom") f)) = .ok r
      ∧ r.hashtags = some (⟨["#a"], ⟨[], [], [], []⟩, "#a"⟩ : HashtagOut).hashtags
      ∧ r.hashtagsFormatted
          = some (⟨["#a"], ⟨[], [], [], []⟩, "#a"⟩ : HashtagOut).formatted
      ∧ r.processedMedia = some [])
    ∧ (∀ (prevProcessed : List String) (upload : List Nat → Option String),
        editMediaEvents prevProcessed [] upload = [])
    ∧ (∀ prevPC : List (String × JsVal),
        lookupKey "processedMedia"
            (spreadMerge prevPC [("processedMedia", JsVal.strList [])])
          = some (JsVal.strList [])) :=
  orchestration_image_failure_isolated ⟨"x", none⟩ [⟨"f1", "image/jpeg"⟩]
    (some ⟨false, true, true⟩) ⟨"", []⟩ ⟨["#a"], ⟨[], [], [], []⟩, "#a"⟩
    (fun _ => "boom") rfl rfl (by decide)

/-! ## Claim C7 -/

theorem savedUrls_eq_nil (resultMedia : List ProcessedItem)
    (upload : List Nat → Option String)
    (hz : ∀ m ∈ resultMedia, m.buffer = []) :
    savedUrls resultMedia upload = [] := by
  simp only [savedUrls, List.filterMap_eq_nil_iff]
  intro m hm
  rw [hz m hm]
  simp

theorem editMediaEvents_eq (prevProcessed : List String)
    (resultMedia : List ProcessedItem) (upload : List Nat → Option String) :
    editMediaEvents prevProcessed resultMedia upload
      = (savedUrls resultMedia upload).map StorageEvent.save ++
        (if 0 < prevProcessed.length ∧ 0 < (savedUrls resultMedia upload).length
         then prevProcessed.map StorageEvent.delete else []) := rfl

theorem save_before_delete (N prevProcessed : List String)
    (D : List StorageEvent)
    (hD : D = prevProcessed.map StorageEvent.delete ∨ D = [])
    (i j : Nat) (hi : i < (N.map StorageEvent.save ++ D).length)
    (hj : j < (N.map StorageEvent.save ++ D).length)
    (hu : ∃ u, (N.map StorageEvent.save ++ D).get ⟨i, hi⟩ = StorageEvent.save u)
    (hw : ∃ w, (N.map StorageEvent.save ++ D).get ⟨j, hj⟩ = StorageEvent.delete w) :
    i < j := by
  obtain ⟨u, hu⟩ := hu
  obtain ⟨w, hw⟩ := hw
  have hiS : i < (N.map StorageEvent.save).length := by
    by_contra hge
    push_neg at hge
    rw [List.get_eq_getElem, List.getElem_append_right hge] at hu
    rcases hD with rfl | rfl
    · rw [List.getElem_map] at hu
      cases hu
    · rw [List.append_nil] at hi
      omega
  have hjS : (N.map StorageEvent.save).length ≤ j := by
    by_contra hlt
    push_neg at hlt
    rw [List.get_eq_getElem, List.getElem_append_left hlt] at hw
    rw [List.getElem_map] at hw
    cases hw
  omega

/-- C7 (amended): in the edit flow, every save of a replacement processed
file happens strictly before every deletion of an old processed file, a
deletion can only occur when at least one replacement was persisted, and
when the image transform produced zero usable output (only empty byte
buffers) there are no storage events at all — the aiService-based edit flow
then retains the previous processed media unchanged, while the
coordinator-based edit flow falls back to the uploaded originals. -/
theorem editMedia_lifecycle (prevProcessed uploaded : List String)
    (resultMedia : List ProcessedItem) (upload : List Nat → Option String) :
    (∀ (i j : Nat)
        (hi : i < (editMediaEvents prevProcessed resultMedia upload).length)
        (hj : j < (editMediaEvents prevProcessed resultMedia upload).length),
      (∃ u, (editMediaEvents prevProcessed resultMedia upload).get ⟨i, hi⟩
          = StorageEvent.save u) →
      (∃ w, (editMediaEvents prevProcessed resultMedia upload).get ⟨j, hj⟩
          = StorageEvent.delete w) →
      i < j)
    ∧ ((∃ u, StorageEvent.delete u ∈ editMediaEvents prevProcessed resultMedia upload) →
        ∃ w, StorageEvent.save w ∈ editMediaEvents prevProcessed resultMedia upload)
    ∧ ((∀ m ∈ resultMedia, m.buffer = []) →
        editMediaEvents prevProcessed resultMedia upload = []
        ∧ (0 < prevProcessed.length →
            mvpStoredProcessedMedia prevProcessed uploaded resultMedia upload
              = prevProcessed)
        ∧ coordinatorStoredProcessedMedia uploaded resultMedia upload
            = uploaded) := by
  refine ⟨fun i j hi hj hu hw => ?_, fun hdel => ?_, fun hz => ?_⟩
  · exact save_before_delete (savedUrls resultMedia upload) prevProcessed _
      (by split <;> simp) i j hi hj hu hw
  · obtain ⟨u, hu⟩ := hdel
    rw [editMediaEvents_eq] at hu
    rcases List.mem_append.mp hu with hS | hD
    · obtain ⟨x, _, hx⟩ := List.mem_map.mp hS
      cases hx
    · have hcond : 0 < prevProcessed.length
          ∧ 0 < (savedUrls resultMedia upload).length := by
        by_contra hc
        rw [if_neg hc] at hD
        cases hD
      obtain ⟨w, hwmem⟩ := List.exists_mem_of_length_pos hcond.2
      exact ⟨w, by
        rw [editMediaEvents_eq]
        exact List.mem_append.mpr (Or.inl (List.mem_map.mpr ⟨w, hwmem, rfl⟩))⟩
  · have hN := savedUrls_eq_nil resultMedia upload hz
    refine ⟨?_, fun hp => ?_, ?_⟩
    · rw [editMediaEvents_eq, hN]
      simp
    · simp [mvpStoredProcessedMedia, hN, hp]
    · simp [coordinatorStoredProcessedMedia, hN]

/-- Witness for C7: a run whose only image output is an empty buffer, with
previous processed media present. -/
theorem editMedia_lifecycle_witness :
    editMediaEvents ["processed/old.jpg"] [⟨"f1", [], []⟩] (fun _ => some "u")
        = []
    ∧ (0 < (["processed/old.jpg"] : List String).length →
        mvpStoredProcessedMedia ["processed/old.jpg"] ["uploads/orig.jpg"]
          [⟨"f1", [], []⟩] (fun _ => some "u") = ["processed/old.jpg"])
    ∧ coordinatorStoredProcessedMedia ["uploads/orig.jpg"] [⟨"f1", [], []⟩]
        (fun _ => some "u") = ["uploads/orig.jpg"] :=
  (editMedia_lifecycle ["processed/old.jpg"] ["uploads/orig.jpg"]
      [⟨"f1", [], []⟩] (fun _ => some "u")).2.2 (by decide)

/-- C7 counterexample: with previous processed media `processed/old.jpg`
and an image-transform run producing only an empty buffer, the
coordinator-based edit flow stores the uploaded originals — the previous
processed media is not retained unchanged (though no deletion occurs). -/
theorem editRetention_cex :
    editMediaEvents ["processed/old.jpg"] [⟨"f1", [], []⟩]
        (fun _ => some "processed/new.jpg") = []
    ∧ coordinatorStoredProcessedMedia ["uploads/orig.jpg"] [⟨"f1", [], []⟩]
        (fun _ => some "processed/new.jpg") = ["uploads/orig.jpg"]
    ∧ (["uploads/orig.jpg"] : List String) ≠ ["processed/old.jpg"] := by
  refine ⟨rfl, rfl, by decide⟩

/-! ## Claim C8 -/

theorem Interleave.mem {α : Type _} {xs ys zs : List α}
    (h : Interleave xs ys zs) (a : α) : a ∈ zs ↔ a ∈ xs ∨ a ∈ ys := by
  induction h with
  | nil => simp
  | consLeft x _ ih =>
    simp only [List.mem_cons, ih]
    tauto
  | consRight y _ ih =>
    simp only [List.mem_cons, ih]
    tauto

/-- C8: in every admissible trace of a normally returning orchestration
call whose plan requires caption, the caption phase runs to completion
first (the first two events), every hashtag invocation receives the caption
text produced in this same call, hashtag generation and the image task both
settle within the interleaved middle section, and the return event is the
unique final event. -/
theorem orchestration_ordering (req : AgentPlan) (capOut : CaptionOut)
    (mediaCount : Nat) (tr : List OrchEv)
    (hreq : req.caption = true)
    (htr : OrchTrace req capOut mediaCount tr) :
    tr.take 2 = [OrchEv.captionStart, OrchEv.captionEnd capOut.caption]
    ∧ (∀ a, OrchEv.hashtagStart a ∈ tr → a = capOut.caption)
    ∧ (req.hashtags = true → OrchEv.hashtagStart capOut.caption ∈ tr
        ∧ OrchEv.hashtagEnd ∈ tr)
    ∧ (req.imageEditor = true → 0 < mediaCount → OrchEv.imageEnd ∈ tr)
    ∧ tr.getLast? = some OrchEv.orchReturn
    ∧ tr.count OrchEv.orchReturn = 1 := by
  obtain ⟨mid, hint, rfl⟩ := htr
  have hcp : captionPhase req capOut
      = [OrchEv.captionStart, OrchEv.captionEnd capOut.caption] := by
    simp [captionPhase, hreq]
  have hmidmem : ∀ e ∈ mid,
      e ∈ hashtagTask req capOut ∨ e ∈ imageTask req mediaCount :=
    fun e he => (hint.mem e).mp he
  rw [hcp]
  refine ⟨rfl, fun a ha => ?_, fun hh => ?_, fun hi hm => ?_, ?_, ?_⟩
  · rcases List.mem_append.mp ha with hcm | hret
    · rcases List.mem_append.mp hcm with hc | hmid
      · simp at hc
      · rcases hmidmem _ hmid with hht | him
        · by_cases hh : req.hashtags
          · simp only [hashtagTask, hh, if_true, List.mem_cons,
              List.mem_singleton] at hht
            rcases hht with h1 | h1 | h1
            · injection h1 with harg
              rw [harg, hreq]
              simp
            · cases h1
            · cases h1
          · simp [hashtagTask, hh] at hht
        · by_cases hcond : req.imageEditor && decide (0 < mediaCount)
          · simp [imageTask, hcond] at him
          · simp [imageTask, hcond] at him
    · simp at hret
  · have hmem : OrchEv.hashtagStart capOut.caption ∈ hashtagTask req capOut
        ∧ OrchEv.hashtagEnd ∈ hashtagTask req capOut := by
      simp [hashtagTask, hh, hreq]
    exact ⟨List.mem_append.mpr (Or.inl (List.mem_append.mpr
        (Or.inr ((hint.mem _).mpr (Or.inl hmem.1))))),
      List.mem_append.mpr (Or.inl (List.mem_append.mpr
        (Or.inr ((hint.mem _).mpr (Or.inl hmem.2)))))⟩
  · have hmem : OrchEv.imageEnd ∈ imageTask req mediaCount := by
      simp [imageTask, hi, hm]
    exact List.mem_append.mpr (Or.inl (List.mem_append.mpr
      (Or.inr ((hint.mem _).mpr (Or.inr hmem)))))
  · exact List.getLast?_concat _
  · rw [List.count_append, List.count_append]
    have h1 : ([OrchEv.captionStart,
        OrchEv.captionEnd capOut.caption] : List OrchEv).count
          OrchEv.orchReturn = 0 := by
      rw [List.count_eq_zero]
      intro hmem
      simp at hmem
    have h2 : mid.count OrchEv.orchReturn = 0 := by
      rw [List.count_eq_zero]
      intro hmem
      rcases hmidmem _ hmem with hht | him
      · by_cases hh : req.hashtags <;> simp [hashtagTask, hh] at hht
      · by_cases hcond : req.imageEditor && decide (0 < mediaCount) <;>
          simp [imageTask, hcond] at him
    rw [h1, h2]
    decide

/-- Witness for C8 at a concrete plan, caption output and interleaving. -/
theorem orchestration_ordering_witness :
    ([OrchEv.captionStart, OrchEv.captionEnd "cap", OrchEv.hashtagStart "cap",
        OrchEv.hashtagEnd, OrchEv.imageStart, OrchEv.imageEnd,
        OrchEv.orchReturn] : List OrchEv).take 2
        = [OrchEv.captionStart, OrchEv.captionEnd "cap"]
    ∧ (∀ a, OrchEv.hashtagStart a ∈
        ([OrchEv.captionStart, OrchEv.captionEnd "cap", OrchEv.hashtagStart "cap",
          OrchEv.hashtagEnd, OrchEv.imageStart, OrchEv.imageEnd,
          OrchEv.orchReturn] : List OrchEv) → a = "cap")
    ∧ (true = true → OrchEv.hashtagStart "cap" ∈
        ([OrchEv.captionStart, OrchEv.captionEnd "cap", OrchEv.hashtagStart "cap",
          OrchEv.hashtagEnd, OrchEv.imageStart, OrchEv.imageEnd,
          OrchEv.orchReturn] : List OrchEv)
        ∧ OrchEv.hashtagEnd ∈
        ([OrchEv.captionStart, OrchEv.captionEnd "cap", OrchEv.hashtagStart "cap",
          OrchEv.hashtagEnd, OrchEv.imageStart, OrchEv.imageEnd,
          OrchEv.orchReturn] : List OrchEv))
    ∧ (true = true → 0 < 1 → OrchEv.imageEnd ∈
        ([OrchEv.captionStart, OrchEv.captionEnd "cap", OrchEv.hashtagStart "cap",
          OrchEv.hashtagEnd, OrchEv.imageStart, OrchEv.imageEnd,
          OrchEv.orchReturn] : List OrchEv))
    ∧ ([OrchEv.captionStart, OrchEv.captionEnd "cap", OrchEv.hashtagStart "cap",
        OrchEv.hashtagEnd, OrchEv.imageStart, OrchEv.imageEnd,
        OrchEv.orchReturn] : List OrchEv).getLast? = some OrchEv.orchReturn
    ∧ ([OrchEv.captionStart, OrchEv.captionEnd "cap", OrchEv.hashtagStart "cap",
        OrchEv.hashtagEnd, OrchEv.imageStart, OrchEv.imageEnd,
        OrchEv.orchReturn] : List OrchEv).count OrchEv.orchReturn = 1 :=
  orchestration_ordering ⟨true, true, true⟩ ⟨"cap", ["v"]⟩ 1 _ rfl
    ⟨[OrchEv.hashtagStart "cap", OrchEv.hashtagEnd, OrchEv.imageStart,
      OrchEv.imageEnd],
      by
        show Interleave [OrchEv.hashtagStart "cap", OrchEv.hashtagEnd]
          [OrchEv.imageStart, OrchEv.imageEnd] _
        exact .consLeft _ (.consLeft _ (.consRight _ (.consRight _ .nil))),
      rfl⟩

/-! ## Claim C10 -/

/-- C10: the session-store wrappers are total — the store get returns
`null` on any underlying failure and the store set returns `false`; hence
`getSession` returns `null` both when the key is genuinely absent and when
the read fails, and in either case the session-validation middleware
auto-creates a fresh empty session for the supplied identifier instead of
reporting an error. -/
theorem sessionStore_failure_totality
    (store : String → Except String (Option SessionRec))
    (sessionId : String) (e : String) (now : Nat) :
    redisGet (Except.error e) = none
    ∧ redisSet (Except.error e) = false
    ∧ (store ("session:" ++ sessionId) = .error e →
        getSession store sessionId = none)
    ∧ (store ("session:" ++ sessionId) = .ok none →
        getSession store sessionId = none)
    ∧ (getSession store sessionId = none →
        validateSession store (some sessionId) now
          = ValidationOutcome.proceed (createSessionWithId sessionId now) true) := by
  refine ⟨rfl, rfl, fun h => ?_, fun h => ?_, fun h => ?_⟩
  · simp [getSession, h, redisGet]
  · simp [getSession, h, redisGet]
  · simp [validateSession, h]

/-- Witness for C10: a store whose every read throws still yields a
proceeding validation with a freshly created session. -/
theorem sessionStore_failure_totality_witness :
    validateSession (fun _ => Except.error "connection refused") (some "abc") 7
      = ValidationOutcome.proceed (createSessionWithId "abc" 7) true :=
  (sessionStore_failure_totality (fun _ => Except.error "connection refused")
    "abc" "connection refused" 7).2.2.2.2 rfl

end Dripfyre
